import Mathlib

/-!
Verification of the open-addressing hash set (`table.c`, generic variant):
a fixed-capacity set with parallel `data`/`flags` arrays, linear probing,
lazy deletion through tombstone flags, and caller-supplied `compare`/`hash`
callbacks.  The definitions below are a shallow embedding of the C source;
the theorems settle the specification's claims against it.
-/

namespace HashSet

/-- Shallow embedding of `struct set` (`genericTable`): the `data` and `flags`
parallel arrays (a `data` cell the code never wrote is `none`), the live
element `count`, the allocated `size`, and the two caller-supplied callbacks
`compare` (equality holds when it returns 0) and `hash`. -/
structure SET (α : Type) where
  data : List (Option α)
  flags : List Nat
  count : Nat
  size : Nat
  compare : α → α → Int
  hash : α → Nat

variable {α : Type}

/-- Read `sp->flags[i]`; out-of-range reads default to 0 (they never occur
under the length invariant). -/
def flagAt (s : SET α) (i : Nat) : Nat := s.flags.getD i 0

/-- Read `sp->data[i]`; `none` stands for a cell the C code never wrote. -/
def dataAt (s : SET α) (i : Nat) : Option α := s.data.getD i none

/-- The test `(*sp->compare)(sp->data[i], elt) == 0` performed on an occupied
slot. -/
def eqAt (s : SET α) (i : Nat) (elt : α) : Bool :=
  match dataAt s i with
  | some a => s.compare a elt == 0
  | none => false

/-- `createSet(maxElts, compare, hash)`: allocates the two arrays, zeroes the
flags (all slots empty) and starts with `count = 0`. -/
def createSet (maxElts : Nat) (compare : α → α → Int) (hash : α → Nat) : SET α :=
  { data := List.replicate maxElts none
    flags := List.replicate maxElts 0
    count := 0
    size := maxElts
    compare := compare
    hash := hash }

/-- The `while (index < sp->size && index != home)` loop of
`findElementIndex`, with explicit fuel.  The fuel `sp->size - 1` used below
is exact: after `size - 1` advances the index is back at `home` and the C
loop exits, returning `firstDeleted`, which is also what fuel exhaustion
returns here. -/
def findWhile (s : SET α) (elt : α) (home : Nat) : Nat → Nat → Nat → Nat × Bool
  | 0, _, firstDeleted => (firstDeleted, false)
  | fuel + 1, index, firstDeleted =>
    if index < s.size ∧ index ≠ home then
      if flagAt s index == 0 then (index, false)
      else if flagAt s index == 1 && eqAt s index elt then (index, true)
      else
        findWhile s elt home fuel ((index + 1) % s.size)
          (if flagAt s index == 2 && firstDeleted == s.size then index else firstDeleted)
    else (firstDeleted, false)

/-- `findElementIndex(sp, elt, &found)`: linear probe starting at
`home = (*sp->hash)(elt) % sp->size`.  Returns the pair (returned index,
value stored through `found`).  The first visit (at `home`) is the `if`
block of the C code; the remaining visits are the `while` loop. -/
def findElementIndex (s : SET α) (elt : α) : Nat × Bool :=
  let home := s.hash elt % s.size
  let firstDeleted := s.size
  if home < s.size then
    if flagAt s home == 0 then (home, false)
    else if flagAt s home == 1 && eqAt s home elt then (home, true)
    else
      findWhile s elt home (s.size - 1) ((home + 1) % s.size)
        (if flagAt s home == 2 && firstDeleted == s.size then home else firstDeleted)
  else (firstDeleted, false)

/-- `numElements(sp)`: returns `sp->count`. -/
def numElements (s : SET α) : Nat := s.count

/-- `addElement(sp, elt)`: probes; if already present, a no-op, otherwise
stores the element at the returned index, marks the slot filled and
increments the count.  (The C precondition `sp->count < sp->size` appears as
a hypothesis on the theorems.) -/
def addElement (s : SET α) (elt : α) : SET α :=
  let r := findElementIndex s elt
  if r.2 then s
  else { s with data := s.data.set r.1 (some elt)
                flags := s.flags.set r.1 1
                count := s.count + 1 }

/-- `removeElement(sp, elt)`: a `NULL` element is ignored; otherwise probes
and, only when found, marks the slot deleted (flag 2) and decrements the
count.  The data cell is left as it was, matching the C code. -/
def removeElement (s : SET α) (elt : Option α) : SET α :=
  match elt with
  | none => s
  | some e =>
    let r := findElementIndex s e
    if r.2 then { s with flags := s.flags.set r.1 2, count := s.count - 1 }
    else s

/-- `findElement(sp, elt)`: a `NULL` element gives `NULL`; otherwise probes
and returns the stored element on success, `NULL` on failure. -/
def findElement (s : SET α) (elt : Option α) : Option α :=
  match elt with
  | none => none
  | some e =>
    let r := findElementIndex s e
    if r.2 then dataAt s r.1 else none

/-- `getElements(sp)`: scans the slot array in order and collects the data of
every slot whose flag is 1 (filled). -/
def getElements (s : SET α) : List (Option α) :=
  ((List.range s.size).filter (fun i => flagAt s i == 1)).map (fun i => dataAt s i)

/-- State-passing form of `numElements`: the C body only reads `sp->count`,
so the state component is returned untouched. -/
def numElementsRun (s : SET α) : Nat × SET α := (numElements s, s)

/-- State-passing form of `findElement`: the body probes and reads
`sp->data`; no field of `*sp` is assigned, so the state is returned
untouched. -/
def findElementRun (s : SET α) (elt : Option α) : Option α × SET α :=
  (findElement s elt, s)

/-- State-passing form of `getElements`: the body writes only into the
freshly allocated return array, so the state is returned untouched. -/
def getElementsRun (s : SET α) : List (Option α) × SET α := (getElements s, s)

/-- Integer comparison used by the concrete scenarios: `compare a b = a - b`,
so the result is 0 exactly on equal numbers. -/
def cmpN : Nat → Nat → Int := fun a b => (a : Int) - (b : Int)

/-- Identity hash used by the concrete scenarios. -/
def hashN : Nat → Nat := fun a => a

/-- The capacity-4 table of the spec's concrete scenario. -/
def demo0 : SET Nat := createSet 4 cmpN hashN

/-- The scenario table after `add(1); add(5); add(2)`. -/
def demo3 : SET Nat := addElement (addElement (addElement demo0 1) 5) 2

/-- The scenario table after the further `remove(5)`. -/
def demoAfterRemove : SET Nat := removeElement demo3 (some 5)

/-- The scenario table after the further `add(9)`. -/
def demoAfterAdd9 : SET Nat := addElement demoAfterRemove 9

/-- A capacity-3 table on which `add(0); remove(0)` leaves a tombstone at
slot 0 followed by an empty slot 1. -/
def demoTomb : SET Nat := removeElement (addElement (createSet 3 cmpN hashN) 0) (some 0)

/-- The "continue probing" case of one probe visit: the slot is neither
empty nor an occupied slot holding an equal element. -/
def contAt (s : SET α) (elt : α) (i : Nat) : Bool :=
  !(flagAt s i == 0) && !(flagAt s i == 1 && eqAt s i elt)

/-- The probe walk as a recursion over the list of slot indices it visits,
threading the `firstDeleted` accumulator exactly as the C loop body does. -/
def probeList (s : SET α) (elt : α) : List Nat → Nat → Nat × Bool
  | [], fd => (fd, false)
  | i :: rest, fd =>
    if flagAt s i == 0 then (i, false)
    else if flagAt s i == 1 && eqAt s i elt then (i, true)
    else probeList s elt rest (if flagAt s i == 2 && fd == s.size then i else fd)

/-- The value of the `firstDeleted` accumulator after walking a list of slot
indices without returning. -/
def fdAfter (s : SET α) : List Nat → Nat → Nat
  | [], fd => fd
  | i :: rest, fd => fdAfter s rest (if flagAt s i == 2 && fd == s.size then i else fd)

/-- The home slot `(*sp->hash)(elt) % sp->size`. -/
def homeOf (s : SET α) (elt : α) : Nat := s.hash elt % s.size

/-- The sequence of slot indices the probe visits: `home`, `home + 1`, ...
taken modulo the capacity, one entry per slot. -/
def walk (s : SET α) (elt : α) : List Nat :=
  (List.range s.size).map (fun j => (homeOf s elt + j) % s.size)

lemma findWhile_eq_probeList (s : SET α) (elt : α) (home : Nat)
    (hs : 0 < s.size) (hhome : home < s.size) :
    ∀ m k fd, k + m = s.size → 1 ≤ k →
      findWhile s elt home m ((home + k) % s.size) fd
        = probeList s elt ((List.range m).map (fun j => (home + k + j) % s.size)) fd := by
  intro m
  induction m with
  | zero =>
    intro k fd hk _
    simp [findWhile, probeList]
  | succ m ih =>
    intro k fd hk hk1
    have hks : k < s.size := by omega
    have hidx : (home + k) % s.size < s.size := Nat.mod_lt _ hs
    have hne : (home + k) % s.size ≠ home := by
      intro hEq
      have h1 : (home + k) % s.size = home % s.size := by
        rw [hEq, Nat.mod_eq_of_lt hhome]
      have h2 : s.size ∣ k := by
        have h3 : home ≡ home + k [MOD s.size] := h1.symm
        have h4 := (Nat.modEq_iff_dvd' (Nat.le_add_right home k)).mp h3
        simpa using h4
      have := Nat.le_of_dvd (by omega) h2
      omega
    have hcond : ((home + k) % s.size < s.size ∧ (home + k) % s.size ≠ home) := ⟨hidx, hne⟩
    have hrange : List.range (m + 1) = 0 :: (List.range m).map Nat.succ :=
      List.range_succ_eq_map m
    rw [hrange]
    simp only [List.map_cons, List.map_map]
    have hhead : (home + k + 0) % s.size = (home + k) % s.size := by
      rw [Nat.add_zero]
    have htail :
        (List.range m).map ((fun j => (home + k + j) % s.size) ∘ Nat.succ)
          = (List.range m).map (fun j => (home + (k + 1) + j) % s.size) := by
      simp only [Function.comp_def]
      apply List.map_congr_left
      intro j _
      congr 1
      omega
    rw [hhead, htail]
    rw [findWhile, if_pos hcond]
    by_cases h0 : (flagAt s ((home + k) % s.size) == 0) = true
    · rw [probeList, if_pos h0, if_pos h0]
    · by_cases h1 :
        (flagAt s ((home + k) % s.size) == 1 && eqAt s ((home + k) % s.size) elt) = true
      · rw [probeList, if_neg h0, if_neg h0, if_pos h1, if_pos h1]
      · rw [probeList, if_neg h0, if_neg h0, if_neg h1, if_neg h1]
        have hstep : ((home + k) % s.size + 1) % s.size = (home + (k + 1)) % s.size := by
          have hadd : home + (k + 1) = home + k + 1 := by omega
          rw [hadd, Nat.mod_add_mod]
        rw [hstep]
        exact ih (k + 1)
          (if flagAt s ((home + k) % s.size) == 2 && fd == s.size
            then (home + k) % s.size else fd)
          (by omega) (by omega)

lemma range_map_cons (f : Nat → Nat) (n : Nat) (hn : 0 < n) :
    (List.range n).map f = f 0 :: (List.range (n - 1)).map (fun j => f (1 + j)) := by
  obtain ⟨m, rfl⟩ : ∃ m, n = m + 1 := ⟨n - 1, by omega⟩
  rw [List.range_succ_eq_map]
  simp only [List.map_cons, List.map_map, Function.comp_def, Nat.add_sub_cancel]
  refine congrArg₂ List.cons rfl ?_
  apply List.map_congr_left
  intro j _
  exact congrArg f (by omega)

lemma findElementIndex_eq_probeList (s : SET α) (elt : α) (hs : 0 < s.size) :
    findElementIndex s elt = probeList s elt (walk s elt) s.size := by
  have hhome : s.hash elt % s.size < s.size := Nat.mod_lt _ hs
  have hwalk : walk s elt
      = (s.hash elt % s.size)
        :: (List.range (s.size - 1)).map
            (fun j => (s.hash elt % s.size + 1 + j) % s.size) := by
    unfold walk homeOf
    rw [range_map_cons _ _ hs]
    refine congrArg₂ List.cons ?_ ?_
    · rw [Nat.add_zero, Nat.mod_eq_of_lt hhome]
    · apply List.map_congr_left
      intro j _
      congr 1
      omega
  rw [hwalk]
  show (if s.hash elt % s.size < s.size then
          if flagAt s (s.hash elt % s.size) == 0 then (s.hash elt % s.size, false)
          else if flagAt s (s.hash elt % s.size) == 1 && eqAt s (s.hash elt % s.size) elt then
            (s.hash elt % s.size, true)
          else
            findWhile s elt (s.hash elt % s.size) (s.size - 1)
              ((s.hash elt % s.size + 1) % s.size)
              (if flagAt s (s.hash elt % s.size) == 2 && s.size == s.size then
                s.hash elt % s.size else s.size)
        else (s.size, false)) = _
  rw [if_pos hhome]
  by_cases h0 : (flagAt s (s.hash elt % s.size) == 0) = true
  · rw [probeList, if_pos h0, if_pos h0]
  · by_cases h1 :
      (flagAt s (s.hash elt % s.size) == 1 && eqAt s (s.hash elt % s.size) elt) = true
    · rw [probeList, if_neg h0, if_neg h0, if_pos h1, if_pos h1]
    · rw [probeList, if_neg h0, if_neg h0, if_neg h1, if_neg h1]
      have := findWhile_eq_probeList s elt (s.hash elt % s.size) hs hhome
        (s.size - 1) 1
        (if flagAt s (s.hash elt % s.size) == 2 && s.size == s.size then
          s.hash elt % s.size else s.size)
        (by omega) (by omega)
      exact this

lemma contAt_iff (s : SET α) (elt : α) (i : Nat) :
    contAt s elt i = true
      ↔ ((flagAt s i == 0) = false ∧ (flagAt s i == 1 && eqAt s i elt) = false) := by
  unfold contAt
  constructor
  · intro h
    constructor
    · cases h0 : (flagAt s i == 0) with
      | false => rfl
      | true => rw [h0] at h; simp at h
    · cases h1 : (flagAt s i == 1 && eqAt s i elt) with
      | false => rfl
      | true => rw [h1] at h; simp at h
  · intro ⟨h0, h1⟩
    rw [h0, h1]
    rfl

lemma probeList_cont_append (s : SET α) (elt : α) :
    ∀ L₁ L₂ fd, (∀ i ∈ L₁, contAt s elt i = true) →
      probeList s elt (L₁ ++ L₂) fd = probeList s elt L₂ (fdAfter s L₁ fd) := by
  intro L₁
  induction L₁ with
  | nil => intro L₂ fd _; rfl
  | cons i rest ih =>
    intro L₂ fd hcont
    have hc := (contAt_iff s elt i).mp (hcont i (by simp))
    rw [List.cons_append, probeList, if_neg (by rw [hc.1]; simp), if_neg (by rw [hc.2]; simp)]
    rw [fdAfter]
    exact ih L₂ _ (fun j hj => hcont j (by simp [hj]))

lemma probeList_cases (s : SET α) (elt : α) :
    ∀ L fd,
      (∃ L₁ L₂, L = L₁ ++ (probeList s elt L fd).1 :: L₂ ∧
        (∀ i ∈ L₁, contAt s elt i = true) ∧
        (((probeList s elt L fd).2 = true ∧ flagAt s (probeList s elt L fd).1 = 1 ∧
            eqAt s (probeList s elt L fd).1 elt = true) ∨
         ((probeList s elt L fd).2 = false ∧ flagAt s (probeList s elt L fd).1 = 0)))
      ∨ ((∀ i ∈ L, contAt s elt i = true) ∧ probeList s elt L fd = (fdAfter s L fd, false)) := by
  intro L
  induction L with
  | nil =>
    intro fd
    right
    exact ⟨by simp, rfl⟩
  | cons i rest ih =>
    intro fd
    by_cases h0 : (flagAt s i == 0) = true
    · left
      refine ⟨[], rest, ?_, by simp, ?_⟩
      · rw [probeList, if_pos h0]
        rfl
      · right
        rw [probeList, if_pos h0]
        exact ⟨rfl, by simpa using h0⟩
    · by_cases h1 : (flagAt s i == 1 && eqAt s i elt) = true
      · left
        refine ⟨[], rest, ?_, by simp, ?_⟩
        · rw [probeList, if_neg h0, if_pos h1]
          rfl
        · left
          rw [probeList, if_neg h0, if_pos h1]
          refine ⟨rfl, ?_, ?_⟩
          · have := (Bool.and_eq_true _ _).mp h1
            simpa using this.1
          · exact ((Bool.and_eq_true _ _).mp h1).2
      · have hci : contAt s elt i = true :=
          (contAt_iff s elt i).mpr ⟨by simpa using h0, by simpa using h1⟩
        have hpl : probeList s elt (i :: rest) fd
            = probeList s elt rest (if flagAt s i == 2 && fd == s.size then i else fd) := by
          rw [probeList, if_neg h0, if_neg h1]
        rcases ih (if flagAt s i == 2 && fd == s.size then i else fd) with
          ⟨L₁, L₂, hsplit, hcont, hres⟩ | ⟨hcont, hres⟩
        · left
          refine ⟨i :: L₁, L₂, ?_, ?_, ?_⟩
          · rw [List.cons_append]
            refine congrArg (List.cons i) ?_
            rw [hpl]
            exact hsplit
          · intro j hj
            rcases List.mem_cons.mp hj with hj | hj
            · rw [hj]; exact hci
            · exact hcont j hj
          · rw [hpl]
            exact hres
        · right
          constructor
          · intro j hj
            rcases List.mem_cons.mp hj with hj | hj
            · rw [hj]; exact hci
            · exact hcont j hj
          · rw [hpl, hres, fdAfter]

lemma fdAfter_of_ne (s : SET α) :
    ∀ L fd, fd ≠ s.size → fdAfter s L fd = fd := by
  intro L
  induction L with
  | nil => intro fd _; rfl
  | cons i rest ih =>
    intro fd hfd
    rw [fdAfter]
    have : (fd == s.size) = false := by simp [hfd]
    rw [this]
    simp only [Bool.and_false, Bool.false_eq_true, if_false]
    exact ih fd hfd

lemma fdAfter_no_tomb (s : SET α) :
    ∀ L fd, (∀ i ∈ L, flagAt s i ≠ 2) → fdAfter s L fd = fd := by
  intro L
  induction L with
  | nil => intro fd _; rfl
  | cons i rest ih =>
    intro fd hL
    rw [fdAfter]
    have h2 : (flagAt s i == 2) = false := by
      simp [hL i (by simp)]
    rw [h2]
    simp only [Bool.false_and, Bool.false_eq_true, if_false]
    exact ih fd (fun j hj => hL j (by simp [hj]))

lemma fdAfter_first_tomb (s : SET α) :
    ∀ L, (∀ i ∈ L, i ≠ s.size) → (∃ i ∈ L, flagAt s i = 2) →
      ∃ L₁ L₂, L = L₁ ++ (fdAfter s L s.size) :: L₂ ∧
        flagAt s (fdAfter s L s.size) = 2 ∧ ∀ i ∈ L₁, flagAt s i ≠ 2 := by
  intro L
  induction L with
  | nil =>
    intro _ htomb
    simp at htomb
  | cons i rest ih =>
    intro hne htomb
    by_cases hi : flagAt s i = 2
    · have hguard : (flagAt s i == 2 && (s.size == s.size)) = true := by
        simp [hi]
      have hfd : fdAfter s (i :: rest) s.size = i := by
        rw [fdAfter, hguard]
        simp only [if_true]
        exact fdAfter_of_ne s rest i (hne i (by simp))
      exact ⟨[], rest, by rw [hfd]; simp, by rw [hfd]; exact hi, by simp⟩
    · have hguard : (flagAt s i == 2 && (s.size == s.size)) = false := by
        simp [hi]
      have hfd : fdAfter s (i :: rest) s.size = fdAfter s rest s.size := by
        rw [fdAfter, hguard]
        simp only [Bool.false_eq_true, if_false]
      have htomb' : ∃ j ∈ rest, flagAt s j = 2 := by
        rcases htomb with ⟨j, hj, hj2⟩
        rcases List.mem_cons.mp hj with hj | hj
        · rw [hj] at hj2; exact absurd hj2 hi
        · exact ⟨j, hj, hj2⟩
      rcases ih (fun j hj => hne j (by simp [hj])) htomb' with ⟨L₁, L₂, hsplit, h2, hL₁⟩
      refine ⟨i :: L₁, L₂, ?_, ?_, ?_⟩
      · rw [hfd, List.cons_append]
        exact congrArg (List.cons i) hsplit
      · rw [hfd]; exact h2
      · intro j hj
        rcases List.mem_cons.mp hj with hj | hj
        · rw [hj]; exact hi
        · exact hL₁ j hj

lemma mem_walk_lt (s : SET α) (elt : α) (hs : 0 < s.size) :
    ∀ i ∈ walk s elt, i < s.size := by
  intro i hi
  rcases List.mem_map.mp hi with ⟨j, _, rfl⟩
  exact Nat.mod_lt _ hs

lemma mem_walk_of_lt (s : SET α) (elt : α) (hs : 0 < s.size)
    (j : Nat) (hj : j < s.size) : j ∈ walk s elt := by
  have hhome : homeOf s elt < s.size := Nat.mod_lt _ hs
  refine List.mem_map.mpr ⟨(j + s.size - homeOf s elt) % s.size, ?_, ?_⟩
  · exact List.mem_range.mpr (Nat.mod_lt _ hs)
  · rw [Nat.add_mod_mod]
    have harith : homeOf s elt + (j + s.size - homeOf s elt) = j + s.size := by omega
    rw [harith, Nat.add_mod_right]
    exact Nat.mod_eq_of_lt hj

lemma walk_nodup (s : SET α) (elt : α) : (walk s elt).Nodup := by
  rcases Nat.eq_zero_or_pos s.size with hz | hs
  · unfold walk
    rw [hz]
    simp
  · refine List.Nodup.map_on ?_ (List.nodup_range s.size)
    intro i hi j hj hEq
    rw [List.mem_range] at hi hj
    rcases Nat.le_total i j with hle | hle
    · have h1 : homeOf s elt + i ≡ homeOf s elt + j [MOD s.size] := hEq
      have h2 : i ≡ j [MOD s.size] := Nat.ModEq.add_left_cancel' _ h1
      have h3 := (Nat.modEq_iff_dvd' hle).mp h2
      rcases Nat.eq_zero_or_pos (j - i) with h | h
      · omega
      · have := Nat.le_of_dvd h h3
        omega
    · have h1 : homeOf s elt + j ≡ homeOf s elt + i [MOD s.size] := hEq.symm
      have h2 : j ≡ i [MOD s.size] := Nat.ModEq.add_left_cancel' _ h1
      have h3 := (Nat.modEq_iff_dvd' hle).mp h2
      rcases Nat.eq_zero_or_pos (i - j) with h | h
      · omega
      · have := Nat.le_of_dvd h h3
        omega

/-- Case analysis of one full probe: the probe either returns at the first
empty slot of the walk, or at the first occupied slot holding an equal
element, or — when the whole walk is exhausted — at the first tombstone, or
with the sentinel `size` when the walk holds no tombstone at all. -/
lemma probe_spec (s : SET α) (elt : α) (hs : 0 < s.size) :
    ((findElementIndex s elt).2 = true ∧
      ∃ L₁ L₂, walk s elt = L₁ ++ (findElementIndex s elt).1 :: L₂ ∧
        (∀ i ∈ L₁, contAt s elt i = true) ∧
        flagAt s (findElementIndex s elt).1 = 1 ∧
        eqAt s (findElementIndex s elt).1 elt = true)
  ∨ ((findElementIndex s elt).2 = false ∧
      ∃ L₁ L₂, walk s elt = L₁ ++ (findElementIndex s elt).1 :: L₂ ∧
        (∀ i ∈ L₁, contAt s elt i = true) ∧
        flagAt s (findElementIndex s elt).1 = 0)
  ∨ ((findElementIndex s elt).2 = false ∧ (∀ i ∈ walk s elt, contAt s elt i = true) ∧
      ∃ L₁ L₂, walk s elt = L₁ ++ (findElementIndex s elt).1 :: L₂ ∧
        flagAt s (findElementIndex s elt).1 = 2 ∧ ∀ i ∈ L₁, flagAt s i ≠ 2)
  ∨ ((findElementIndex s elt).2 = false ∧ (findElementIndex s elt).1 = s.size ∧
      (∀ i ∈ walk s elt, contAt s elt i = true) ∧
      ∀ i ∈ walk s elt, flagAt s i ≠ 2) := by
  have hbr := findElementIndex_eq_probeList s elt hs
  rcases probeList_cases s elt (walk s elt) s.size with
    ⟨L₁, L₂, hsplit, hcont, hres⟩ | ⟨hcont, hres⟩
  · rcases hres with ⟨h2, hflag, heq⟩ | ⟨h2, hflag⟩
    · left
      rw [hbr]
      exact ⟨h2, L₁, L₂, hsplit, hcont, hflag, heq⟩
    · right; left
      rw [hbr]
      exact ⟨h2, L₁, L₂, hsplit, hcont, hflag⟩
  · by_cases htomb : ∃ i ∈ walk s elt, flagAt s i = 2
    · right; right; left
      have hne : ∀ i ∈ walk s elt, i ≠ s.size := by
        intro i hi
        have := mem_walk_lt s elt hs i hi
        omega
      rcases fdAfter_first_tomb s (walk s elt) hne htomb with ⟨L₁, L₂, hsplit, h2, hL₁⟩
      rw [hbr, hres]
      exact ⟨rfl, hcont, L₁, L₂, hsplit, h2, hL₁⟩
    · right; right; right
      have hfd : fdAfter s (walk s elt) s.size = s.size := by
        apply fdAfter_no_tomb
        intro i hi hflag
        exact htomb ⟨i, hi, hflag⟩
      rw [hbr, hres, hfd]
      exact ⟨rfl, rfl, hcont, fun i hi hflag => htomb ⟨i, hi, hflag⟩⟩

lemma getD_set_self {β : Type} (l : List β) (a d : β) :
    ∀ i, i < l.length → (l.set i a).getD i d = a := by
  induction l with
  | nil => intro i h; simp at h
  | cons x xs ih =>
    intro i h
    cases i with
    | zero => rfl
    | succ n =>
      have hn : n < xs.length := by simpa using h
      show (xs.set n a).getD n d = a
      exact ih n hn

lemma getD_set_ne {β : Type} (l : List β) (a d : β) :
    ∀ i j, i ≠ j → (l.set i a).getD j d = l.getD j d := by
  induction l with
  | nil => intro i j _; simp
  | cons x xs ih =>
    intro i j hne
    cases i with
    | zero =>
      cases j with
      | zero => exact absurd rfl hne
      | succ m => rfl
    | succ n =>
      cases j with
      | zero => rfl
      | succ m =>
        show (xs.set n a).getD m d = xs.getD m d
        exact ih n m (fun h => hne (by rw [h]))

/-- Number of slots whose flag is 1 (occupied). -/
def occCount (s : SET α) : Nat :=
  ((Finset.range s.size).filter (fun i => flagAt s i = 1)).card

/-- Number of occupied slots whose stored element compares equal to `elt`. -/
def eqCount (s : SET α) (elt : α) : Nat :=
  ((Finset.range s.size).filter (fun i => flagAt s i = 1 ∧ eqAt s i elt = true)).card

/-- Representation invariant maintained by the operations: the two arrays
have the allocated length, every flag is one of empty/filled/deleted, and
the count matches the number of occupied slots. -/
def Inv (s : SET α) : Prop :=
  s.flags.length = s.size ∧ s.data.length = s.size ∧
  (∀ i, i < s.size → flagAt s i = 0 ∨ flagAt s i = 1 ∨ flagAt s i = 2) ∧
  s.count = occCount s

instance (s : SET α) : Decidable (Inv s) := by
  unfold Inv
  infer_instance

lemma contAt_congr (s t : SET α) (elt : α) (i : Nat)
    (hcmp : t.compare = s.compare)
    (hf : flagAt t i = flagAt s i) (hd : dataAt t i = dataAt s i) :
    contAt t elt i = contAt s elt i := by
  unfold contAt eqAt
  rw [hf, hd, hcmp]

/-- Under the invariant, a probe on a non-full table returns an in-range
index, and when it reports not-found that index is an empty or tombstoned
slot. -/
lemma probe_lt_of_room (s : SET α) (elt : α) (hInv : Inv s)
    (hroom : s.count < s.size) :
    (findElementIndex s elt).1 < s.size ∧
    ((findElementIndex s elt).2 = false →
      flagAt s (findElementIndex s elt).1 = 0 ∨ flagAt s (findElementIndex s elt).1 = 2) := by
  have hs : 0 < s.size := by omega
  obtain ⟨hflen, hdlen, hflags, hcount⟩ := hInv
  have hnonocc : ∃ j, j < s.size ∧ flagAt s j ≠ 1 := by
    by_contra hall
    push_neg at hall
    have : ((Finset.range s.size).filter (fun i => flagAt s i = 1)) = Finset.range s.size := by
      apply Finset.filter_true_of_mem
      intro i hi
      exact hall i (Finset.mem_range.mp hi)
    have hocc : occCount s = s.size := by
      unfold occCount
      rw [this, Finset.card_range]
    omega
  rcases probe_spec s elt hs with
    ⟨h2, L₁, L₂, hsplit, _, hflag, _⟩ |
    ⟨h2, L₁, L₂, hsplit, _, hflag⟩ |
    ⟨h2, _, L₁, L₂, hsplit, hflag, _⟩ |
    ⟨h2, hsen, hcontAll, hno2⟩
  · have hmem : (findElementIndex s elt).1 ∈ walk s elt := by
      rw [hsplit]; simp
    refine ⟨mem_walk_lt s elt hs _ hmem, ?_⟩
    intro hfalse
    rw [h2] at hfalse
    cases hfalse
  · have hmem : (findElementIndex s elt).1 ∈ walk s elt := by
      rw [hsplit]; simp
    exact ⟨mem_walk_lt s elt hs _ hmem, fun _ => Or.inl hflag⟩
  · have hmem : (findElementIndex s elt).1 ∈ walk s elt := by
      rw [hsplit]; simp
    exact ⟨mem_walk_lt s elt hs _ hmem, fun _ => Or.inr hflag⟩
  · exfalso
    rcases hnonocc with ⟨j, hj, hj1⟩
    have hjw : j ∈ walk s elt := mem_walk_of_lt s elt hs j hj
    have hcj := hcontAll j hjw
    have hj2 := hno2 j hjw
    have hj0 : flagAt s j ≠ 0 := by
      intro h
      have := (contAt_iff s elt j).mp hcj
      rw [h] at this
      simpa using this.1
    rcases hflags j hj with h | h | h
    · exact hj0 h
    · exact hj1 h
    · exact hj2 h

/-- Probing again for the element just inserted by `addElement` finds it at
the slot the first probe returned. -/
lemma probe_insert_found (s : SET α) (elt : α) (hs : 0 < s.size)
    (hflen : s.flags.length = s.size) (hdlen : s.data.length = s.size)
    (hRefl : s.compare elt elt = 0)
    (hf : (findElementIndex s elt).2 = false)
    (hw : (findElementIndex s elt).1 < s.size) :
    findElementIndex (addElement s elt) elt = ((findElementIndex s elt).1, true) := by
  have hadd : addElement s elt
      = { s with data := s.data.set (findElementIndex s elt).1 (some elt)
                 flags := s.flags.set (findElementIndex s elt).1 1
                 count := s.count + 1 } := by
    unfold addElement
    rw [if_neg (by rw [hf]; simp)]
  set w := (findElementIndex s elt).1 with hwdef
  set t := addElement s elt with htdef
  have htsz : t.size = s.size := by rw [hadd]
  have htcmp : t.compare = s.compare := by rw [hadd]
  have htflags : t.flags = s.flags.set w 1 := by rw [hadd]
  have htdata : t.data = s.data.set w (some elt) := by rw [hadd]
  have hwalkEq : walk t elt = walk s elt := by
    unfold walk homeOf
    rw [hadd]
  have hfw : flagAt t w = 1 := by
    unfold flagAt
    rw [htflags]
    exact getD_set_self s.flags 1 0 w (by omega)
  have hdw : dataAt t w = some elt := by
    unfold dataAt
    rw [htdata]
    exact getD_set_self s.data (some elt) none w (by omega)
  have heqw : eqAt t w elt = true := by
    unfold eqAt
    rw [hdw]
    simp only [htcmp]
    exact beq_iff_eq.mpr hRefl
  have hhead : ∀ fd, probeList t elt (w :: []) fd = (w, true) ∨ True := fun _ => Or.inr trivial
  have hcore : ∀ L₂ fd, probeList t elt (w :: L₂) fd = (w, true) := by
    intro L₂ fd
    rw [probeList]
    rw [if_neg (by rw [hfw]; simp)]
    rw [if_pos (by rw [hfw, heqw]; simp)]
  rcases probe_spec s elt hs with
    ⟨h2, _⟩ |
    ⟨_, L₁, L₂, hsplit, hcont, hflag0⟩ |
    ⟨_, hcontAll, L₁, L₂, hsplit, hflag2, hL₁no2⟩ |
    ⟨_, hsen, _, _⟩
  · rw [hf] at h2
    cases h2
  · have hwne : ∀ i ∈ L₁, i ≠ w := by
      intro i hi hiw
      have hc := (contAt_iff s elt i).mp (hcont i hi)
      rw [hiw, hflag0] at hc
      simpa using hc.1
    have hcont' : ∀ i ∈ L₁, contAt t elt i = true := by
      intro i hi
      have hfEq : flagAt t i = flagAt s i := by
        unfold flagAt
        rw [htflags]
        exact getD_set_ne s.flags 1 0 w i (fun h => hwne i hi h.symm)
      have hdEq : dataAt t i = dataAt s i := by
        unfold dataAt
        rw [htdata]
        exact getD_set_ne s.data (some elt) none w i (fun h => hwne i hi h.symm)
      rw [contAt_congr s t elt i htcmp hfEq hdEq]
      exact hcont i hi
    have := findElementIndex_eq_probeList t elt (by omega)
    rw [this, hwalkEq, hsplit, htsz]
    rw [probeList_cont_append t elt L₁ (w :: L₂) s.size hcont']
    exact hcore L₂ _
  · have hwne : ∀ i ∈ L₁, i ≠ w := by
      intro i hi hiw
      exact hL₁no2 i hi (by rw [hiw]; exact hflag2)
    have hcont' : ∀ i ∈ L₁, contAt t elt i = true := by
      intro i hi
      have hfEq : flagAt t i = flagAt s i := by
        unfold flagAt
        rw [htflags]
        exact getD_set_ne s.flags 1 0 w i (fun h => hwne i hi h.symm)
      have hdEq : dataAt t i = dataAt s i := by
        unfold dataAt
        rw [htdata]
        exact getD_set_ne s.data (some elt) none w i (fun h => hwne i hi h.symm)
      rw [contAt_congr s t elt i htcmp hfEq hdEq]
      exact hcontAll i (by rw [hsplit]; exact List.mem_append_left _ hi)
    have := findElementIndex_eq_probeList t elt (by omega)
    rw [this, hwalkEq, hsplit, htsz]
    rw [probeList_cont_append t elt L₁ (w :: L₂) s.size hcont']
    exact hcore L₂ _
  · rw [hwdef] at hw
    omega

lemma range_map_split (f : Nat → Nat) :
    ∀ n k, k < n →
      (List.range n).map f
        = ((List.range k).map f)
          ++ f k :: ((List.range (n - k - 1)).map (fun j => f (k + 1 + j))) := by
  have hcongr : ∀ (g : Nat → Nat) (L : List Nat) (h : Nat → Nat),
      (∀ j, g j = h j) → L.map g = L.map h := by
    intro g L h hgh
    apply List.map_congr_left
    intro j _
    exact hgh j
  intro n k
  induction k generalizing f n with
  | zero =>
    intro hk
    rw [range_map_cons f n hk]
    simp only [List.range_zero, List.map_nil, List.nil_append, Nat.sub_zero]
  | succ k ih =>
    intro hk
    have hn1 : k < n - 1 := by omega
    rw [range_map_cons f n (by omega)]
    rw [ih (fun j => f (1 + j)) (n - 1) hn1]
    rw [range_map_cons f (k + 1) (by omega)]
    rw [List.cons_append]
    refine congrArg₂ List.cons rfl ?_
    refine congrArg₂ (fun a b => List.append a b) rfl ?_
    refine congrArg₂ List.cons (congrArg f (by omega)) ?_
    have hsz : n - 1 - k - 1 = n - (k + 1) - 1 := by omega
    rw [hsz]
    exact hcongr _ _ _ (fun j => congrArg f (by omega))

/-- C3: for a positive capacity, the probe is exactly the walk that starts
at the home slot `hash(elt) mod capacity` and advances by `(index + 1) mod
capacity` (wraparound included), visiting at most `capacity` slots, each at
most once. -/
theorem c3_probe_walk (s : SET α) (elt : α) (hs : 0 < s.size) :
    findElementIndex s elt = probeList s elt (walk s elt) s.size ∧
    walk s elt = (List.range s.size).map (fun j => (s.hash elt % s.size + j) % s.size) ∧
    (walk s elt).length = s.size ∧
    (walk s elt).Nodup := by
  refine ⟨findElementIndex_eq_probeList s elt hs, rfl, ?_, walk_nodup s elt⟩
  unfold walk
  simp

/-- Witness for C3 at the concrete scenario table and searched element 9. -/
theorem c3_witness :
    0 < demo3.size ∧
    (findElementIndex demo3 9 = probeList demo3 9 (walk demo3 9) demo3.size ∧
      walk demo3 9 = (List.range demo3.size).map
        (fun j => (demo3.hash 9 % demo3.size + j) % demo3.size) ∧
      (walk demo3 9).length = demo3.size ∧
      (walk demo3 9).Nodup) :=
  ⟨by decide, c3_probe_walk demo3 9 (by decide)⟩

lemma probe_le (s : SET α) (elt : α) (hs : 0 < s.size) :
    (findElementIndex s elt).1 ≤ s.size := by
  rcases probe_spec s elt hs with
    ⟨_, L₁, L₂, hsplit, _, _, _⟩ |
    ⟨_, L₁, L₂, hsplit, _, _⟩ |
    ⟨_, _, L₁, L₂, hsplit, _, _⟩ |
    ⟨_, hsen, _, _⟩
  · have hmem : (findElementIndex s elt).1 ∈ walk s elt := by
      rw [hsplit]; simp
    have := mem_walk_lt s elt hs _ hmem
    omega
  · have hmem : (findElementIndex s elt).1 ∈ walk s elt := by
      rw [hsplit]; simp
    have := mem_walk_lt s elt hs _ hmem
    omega
  · have hmem : (findElementIndex s elt).1 ∈ walk s elt := by
      rw [hsplit]; simp
    have := mem_walk_lt s elt hs _ hmem
    omega
  · omega

lemma probe_found_props (s : SET α) (elt : α) (hs : 0 < s.size)
    (hfound : (findElementIndex s elt).2 = true) :
    (findElementIndex s elt).1 < s.size ∧
    flagAt s (findElementIndex s elt).1 = 1 ∧
    ∃ a, dataAt s (findElementIndex s elt).1 = some a ∧ s.compare a elt = 0 := by
  rcases probe_spec s elt hs with
    ⟨_, L₁, L₂, hsplit, _, hflag, heq⟩ |
    ⟨h2, _⟩ | ⟨h2, _⟩ | ⟨h2, _⟩
  · have hmem : (findElementIndex s elt).1 ∈ walk s elt := by
      rw [hsplit]; simp
    refine ⟨mem_walk_lt s elt hs _ hmem, hflag, ?_⟩
    unfold eqAt at heq
    cases hda : dataAt s (findElementIndex s elt).1 with
    | none => rw [hda] at heq; simp at heq
    | some a =>
      rw [hda] at heq
      exact ⟨a, rfl, by simpa using heq⟩
  · rw [hfound] at h2; cases h2
  · rw [hfound] at h2; cases h2
  · rw [hfound] at h2; cases h2

/-- C9: for a positive capacity the probe terminates with an index at most
the capacity, and whenever it reports `found`, that index is in range, the
slot there is occupied and its stored element compares equal to the
searched element. -/
theorem c9_probe_safe (s : SET α) (elt : α) (hs : 0 < s.size) :
    (findElementIndex s elt).1 ≤ s.size ∧
    ((findElementIndex s elt).2 = true →
      (findElementIndex s elt).1 < s.size ∧
      flagAt s (findElementIndex s elt).1 = 1 ∧
      ∃ a, dataAt s (findElementIndex s elt).1 = some a ∧ s.compare a elt = 0) :=
  ⟨probe_le s elt hs, fun h => probe_found_props s elt hs h⟩

/-- Witness for C9 at the scenario table after `remove(5)`, probing for the
present element 2. -/
theorem c9_witness :
    0 < demoAfterRemove.size ∧
    ((findElementIndex demoAfterRemove 2).1 ≤ demoAfterRemove.size ∧
      ((findElementIndex demoAfterRemove 2).2 = true →
        (findElementIndex demoAfterRemove 2).1 < demoAfterRemove.size ∧
        flagAt demoAfterRemove (findElementIndex demoAfterRemove 2).1 = 1 ∧
        ∃ a, dataAt demoAfterRemove (findElementIndex demoAfterRemove 2).1 = some a ∧
          demoAfterRemove.compare a 2 = 0)) :=
  ⟨by decide, c9_probe_safe demoAfterRemove 2 (by decide)⟩

/-- C2 (amended): when the probe walk reaches an empty slot after `k`
continue-steps — even having passed a tombstoned slot on the way — the probe
returns the index of that empty slot with `found = false`, not the index of
the first tombstone.  (The first tombstone is returned only when the walk
completes the full cycle without reaching an empty slot or a match.) -/
theorem c2_empty_slot_returned (s : SET α) (elt : α) (k : Nat) (hs : 0 < s.size)
    (hk : k < s.size)
    (hcont : ∀ m, m < k → contAt s elt ((s.hash elt % s.size + m) % s.size) = true)
    (_htomb : ∃ j, j < k ∧ flagAt s ((s.hash elt % s.size + j) % s.size) = 2)
    (hempty : flagAt s ((s.hash elt % s.size + k) % s.size) = 0) :
    findElementIndex s elt = ((s.hash elt % s.size + k) % s.size, false) := by
  rw [findElementIndex_eq_probeList s elt hs]
  have hwalk : walk s elt
      = ((List.range k).map (fun j => (s.hash elt % s.size + j) % s.size))
        ++ ((s.hash elt % s.size + k) % s.size)
          :: ((List.range (s.size - k - 1)).map
              (fun j => (s.hash elt % s.size + (k + 1 + j)) % s.size)) := by
    unfold walk homeOf
    rw [range_map_split (fun j => (s.hash elt % s.size + j) % s.size) s.size k hk]
  rw [hwalk]
  rw [probeList_cont_append s elt _ _ s.size ?_]
  · rw [probeList, if_pos (by rw [hempty]; simp)]
  · intro i hi
    rcases List.mem_map.mp hi with ⟨m, hm, rfl⟩
    exact hcont m (List.mem_range.mp hm)

/-- Witness for C2's amended statement on the tombstone table: probing for 3
passes the tombstone at slot 0 and returns the empty slot 1. -/
theorem c2_witness :
    0 < demoTomb.size ∧ 1 < demoTomb.size ∧
    (∀ m, m < 1 → contAt demoTomb 3 ((demoTomb.hash 3 % demoTomb.size + m) % demoTomb.size) = true) ∧
    (∃ j, j < 1 ∧ flagAt demoTomb ((demoTomb.hash 3 % demoTomb.size + j) % demoTomb.size) = 2) ∧
    flagAt demoTomb ((demoTomb.hash 3 % demoTomb.size + 1) % demoTomb.size) = 0 ∧
    findElementIndex demoTomb 3 = ((demoTomb.hash 3 % demoTomb.size + 1) % demoTomb.size, false) :=
  ⟨by decide, by decide, by decide, ⟨0, by decide, by decide⟩, by decide,
    c2_empty_slot_returned demoTomb 3 1 (by decide) (by decide) (by decide)
      ⟨0, by decide, by decide⟩ (by decide)⟩

lemma findElement_some_eq (s : SET α) (e : α) :
    findElement s (some e)
      = (if (findElementIndex s e).2 = true
          then dataAt s (findElementIndex s e).1 else none) := rfl

lemma removeElement_some_eq (s : SET α) (e : α) :
    removeElement s (some e)
      = (if (findElementIndex s e).2 = true
          then { s with flags := s.flags.set (findElementIndex s e).1 2,
                        count := s.count - 1 }
          else s) := rfl

lemma probe_zero_size (s : SET α) (e : α) (hz : s.size = 0) :
    findElementIndex s e = (s.size, false) := by
  have hlt : ¬ (s.hash e % s.size < s.size) := by rw [hz]; omega
  unfold findElementIndex
  rw [if_neg hlt]

/-- C8: a null element passed to `findElement` yields an absent result, and
`removeElement` on a null or absent element leaves the set entirely
unchanged (count, flags and data). -/
theorem c8_absent_noop (s : SET α) (elt : Option α)
    (h : findElement s elt = none) :
    removeElement s elt = s ∧ findElement s none = none := by
  refine ⟨?_, rfl⟩
  cases elt with
  | none => rfl
  | some e =>
    have hfalse : (findElementIndex s e).2 = false := by
      rcases Nat.eq_zero_or_pos s.size with hz | hs
      · rw [probe_zero_size s e hz]
      · by_contra hT
        have hT' : (findElementIndex s e).2 = true := by
          cases hx : (findElementIndex s e).2
          · exact absurd hx hT
          · rfl
        rcases probe_found_props s e hs hT' with ⟨_, _, a, hda, _⟩
        rw [findElement_some_eq, hT'] at h
        simp only [if_true] at h
        rw [hda] at h
        cases h
    rw [removeElement_some_eq, hfalse]
    simp

/-- Witness for C8: removing the absent element 7 from the scenario table is
a no-op and a null find is absent. -/
theorem c8_witness :
    findElement demo3 (some 7) = none ∧
    (removeElement demo3 (some 7) = demo3 ∧ findElement demo3 none = none) :=
  ⟨by decide, c8_absent_noop demo3 (some 7) (by decide)⟩

/-- C10: the three query operations return their value together with the
state, and the state component is exactly the input set — none of
`numElements`, `findElement`, `getElements` modifies the count, the flags or
the data. -/
theorem c10_queries_no_mutation (s : SET α) (elt : Option α) :
    (numElementsRun s).2 = s ∧ (numElementsRun s).1 = numElements s ∧
    (findElementRun s elt).2 = s ∧ (findElementRun s elt).1 = findElement s elt ∧
    (getElementsRun s).2 = s ∧ (getElementsRun s).1 = getElements s :=
  ⟨rfl, rfl, rfl, rfl, rfl, rfl⟩

/-- C5 (evaluation at the failing input): `getElements` on the scenario
tables returns exactly the occupied elements in slot-array order, with
exactly `numElements` entries.  (The ownership half of the claim is a C-level
memory fact: the generic `getElements` stores the table's own `data[i]`
pointers in the returned array instead of copies; see the results entry.) -/
theorem c5_enumerate_eval :
    getElements demo3 = [some 1, some 5, some 2] ∧
    (getElements demo3).length = numElements demo3 ∧
    getElements demoAfterAdd9 = [some 9, some 1, some 2] ∧
    (getElements demoAfterAdd9).length = numElements demoAfterAdd9 := by decide

lemma addElement_eq (s : SET α) (e : α) :
    addElement s e
      = (if (findElementIndex s e).2 = true then s
          else { s with data := s.data.set (findElementIndex s e).1 (some e),
                        flags := s.flags.set (findElementIndex s e).1 1,
                        count := s.count + 1 }) := rfl

lemma getD_replicate {β : Type} (x d : β) :
    ∀ n i, i < n → (List.replicate n x).getD i d = x := by
  intro n
  induction n with
  | zero => intro i h; omega
  | succ m ih =>
    intro i h
    cases i with
    | zero => rfl
    | succ j =>
      show (List.replicate m x).getD j d = x
      exact ih j (by omega)

lemma occCount_set_one (s t : SET α) (w : Nat)
    (hsz : t.size = s.size) (hw : w < s.size)
    (hlen : s.flags.length = s.size)
    (hflags : t.flags = s.flags.set w 1)
    (hnot1 : flagAt s w ≠ 1) :
    occCount t = occCount s + 1 := by
  unfold occCount
  rw [hsz]
  have hft : ∀ i, i ≠ w → flagAt t i = flagAt s i := by
    intro i hi
    unfold flagAt
    rw [hflags]
    exact getD_set_ne s.flags 1 0 w i (fun h => hi h.symm)
  have hfw : flagAt t w = 1 := by
    unfold flagAt
    rw [hflags]
    exact getD_set_self s.flags 1 0 w (by omega)
  have hfilter :
      (Finset.range s.size).filter (fun i => flagAt t i = 1)
        = insert w ((Finset.range s.size).filter (fun i => flagAt s i = 1)) := by
    ext i
    simp only [Finset.mem_filter, Finset.mem_insert, Finset.mem_range]
    by_cases hiw : i = w
    · subst hiw
      simp [hw, hfw]
    · rw [hft i hiw]
      constructor
      · intro ⟨h1, h2⟩; exact Or.inr ⟨h1, h2⟩
      · intro h
        rcases h with h | h
        · exact absurd h hiw
        · exact h
  rw [hfilter]
  rw [Finset.card_insert_of_not_mem (by simp [hnot1])]

lemma occCount_set_two (s t : SET α) (w : Nat)
    (hsz : t.size = s.size) (hw : w < s.size)
    (hlen : s.flags.length = s.size)
    (hflags : t.flags = s.flags.set w 2)
    (his1 : flagAt s w = 1) :
    occCount s = occCount t + 1 := by
  unfold occCount
  rw [hsz]
  have hft : ∀ i, i ≠ w → flagAt t i = flagAt s i := by
    intro i hi
    unfold flagAt
    rw [hflags]
    exact getD_set_ne s.flags 2 0 w i (fun h => hi h.symm)
  have hfw : flagAt t w = 2 := by
    unfold flagAt
    rw [hflags]
    exact getD_set_self s.flags 2 0 w (by omega)
  have hfilter :
      (Finset.range s.size).filter (fun i => flagAt s i = 1)
        = insert w ((Finset.range s.size).filter (fun i => flagAt t i = 1)) := by
    ext i
    simp only [Finset.mem_filter, Finset.mem_insert, Finset.mem_range]
    by_cases hiw : i = w
    · subst hiw
      simp [hw, his1]
    · rw [hft i hiw]
      constructor
      · intro ⟨h1, h2⟩; exact Or.inr ⟨h1, h2⟩
      · intro h
        rcases h with h | h
        · exact absurd h hiw
        · exact h
  rw [hfilter]
  rw [Finset.card_insert_of_not_mem (by simp [hfw])]

lemma Inv_createSet (n : Nat) (cmp : α → α → Int) (hsh : α → Nat) :
    Inv (createSet n cmp hsh : SET α) := by
  refine ⟨by simp [createSet], by simp [createSet], ?_, ?_⟩
  · intro i hi
    left
    unfold flagAt createSet
    exact getD_replicate 0 0 n i hi
  · show 0 = occCount (createSet n cmp hsh)
    unfold occCount
    rw [Finset.filter_false_of_mem, Finset.card_empty]
    intro i hi
    show ¬ flagAt (createSet n cmp hsh) i = 1
    unfold flagAt createSet
    rw [getD_replicate 0 0 n i (by simpa using hi)]
    omega

lemma Inv_addElement (s : SET α) (elt : α) (hInv : Inv s) (hroom : s.count < s.size) :
    Inv (addElement s elt) ∧
    ((findElementIndex s elt).2 = false →
      flagAt (addElement s elt) (findElementIndex s elt).1 = 1 ∧
      (addElement s elt).count = s.count + 1) := by
  obtain ⟨hflen, hdlen, hflags, hcount⟩ := hInv
  cases hfound : (findElementIndex s elt).2 with
  | true =>
    have heq : addElement s elt = s := by
      rw [addElement_eq, if_pos hfound]
    rw [heq]
    exact ⟨⟨hflen, hdlen, hflags, hcount⟩, fun h => by simp at h⟩
  | false =>
    obtain ⟨hw, hflag02⟩ := probe_lt_of_room s elt ⟨hflen, hdlen, hflags, hcount⟩ hroom
    have hnot1 : flagAt s (findElementIndex s elt).1 ≠ 1 := by
      rcases hflag02 hfound with h | h <;> omega
    have heq : addElement s elt
        = { s with data := s.data.set (findElementIndex s elt).1 (some elt),
                   flags := s.flags.set (findElementIndex s elt).1 1,
                   count := s.count + 1 } := by
      rw [addElement_eq, if_neg (by rw [hfound]; simp)]
    set t := addElement s elt with htdef
    have htsz : t.size = s.size := by rw [heq]
    have htflags : t.flags = s.flags.set (findElementIndex s elt).1 1 := by rw [heq]
    have htdata : t.data = s.data.set (findElementIndex s elt).1 (some elt) := by rw [heq]
    have htcount : t.count = s.count + 1 := by rw [heq]
    have hfw : flagAt t (findElementIndex s elt).1 = 1 := by
      unfold flagAt
      rw [htflags]
      exact getD_set_self s.flags 1 0 _ (by omega)
    have hocc : occCount t = occCount s + 1 :=
      occCount_set_one s t (findElementIndex s elt).1 htsz hw hflen htflags hnot1
    refine ⟨⟨?_, ?_, ?_, ?_⟩, fun _ => ⟨hfw, htcount⟩⟩
    · rw [htflags, htsz, List.length_set]
      exact hflen
    · rw [htdata, htsz, List.length_set]
      exact hdlen
    · intro i hi
      rw [htsz] at hi
      by_cases hiw : i = (findElementIndex s elt).1
      · subst hiw
        right; left
        exact hfw
      · have : flagAt t i = flagAt s i := by
          unfold flagAt
          rw [htflags]
          exact getD_set_ne s.flags 1 0 _ i (fun h => hiw h.symm)
        rw [this]
        exact hflags i hi
    · rw [htcount, hocc, hcount]

lemma Inv_removeElement (s : SET α) (elt : Option α) (hInv : Inv s) :
    Inv (removeElement s elt) := by
  obtain ⟨hflen, hdlen, hflags, hcount⟩ := hInv
  cases elt with
  | none => exact ⟨hflen, hdlen, hflags, hcount⟩
  | some e =>
    cases hfound : (findElementIndex s e).2 with
    | false =>
      have heq : removeElement s (some e) = s := by
        rw [removeElement_some_eq, if_neg (by rw [hfound]; simp)]
      rw [heq]
      exact ⟨hflen, hdlen, hflags, hcount⟩
    | true =>
      have hs : 0 < s.size := by
        rcases Nat.eq_zero_or_pos s.size with hz | hs
        · rw [probe_zero_size s e hz] at hfound
          cases hfound
        · exact hs
      obtain ⟨hw, his1, _⟩ := probe_found_props s e hs hfound
      have heq : removeElement s (some e)
          = { s with flags := s.flags.set (findElementIndex s e).1 2,
                     count := s.count - 1 } := by
        rw [removeElement_some_eq, if_pos hfound]
      set t := removeElement s (some e) with htdef
      have htsz : t.size = s.size := by rw [heq]
      have htflags : t.flags = s.flags.set (findElementIndex s e).1 2 := by rw [heq]
      have htdata : t.data = s.data := by rw [heq]
      have htcount : t.count = s.count - 1 := by rw [heq]
      have hocc : occCount s = occCount t + 1 :=
        occCount_set_two s t (findElementIndex s e).1 htsz hw hflen htflags his1
      refine ⟨?_, ?_, ?_, ?_⟩
      · rw [htflags, htsz, List.length_set]
        exact hflen
      · rw [htdata, htsz]
        exact hdlen
      · intro i hi
        rw [htsz] at hi
        by_cases hiw : i = (findElementIndex s e).1
        · subst hiw
          right; right
          unfold flagAt
          rw [htflags]
          exact getD_set_self s.flags 2 0 _ (by omega)
        · have : flagAt t i = flagAt s i := by
            unfold flagAt
            rw [htflags]
            exact getD_set_ne s.flags 2 0 _ i (fun h => hiw h.symm)
          rw [this]
          exact hflags i hi
      · rw [htcount, hcount, hocc]
        omega

/-- C4: the count equals the number of occupied slots after every operation:
`createSet` establishes the representation invariant, `addElement` (under
the `count < size` precondition) and `removeElement` preserve it, and an add
of a not-found element marks the probe's returned slot occupied and
increments the count by exactly 1. -/
theorem c4_count_matches_occupied (n : Nat) (cmp : α → α → Int) (hsh : α → Nat)
    (s : SET α) (elt : α) (elt? : Option α) (hInv : Inv s) :
    Inv (createSet n cmp hsh) ∧
    (s.count < s.size →
      Inv (addElement s elt) ∧
      ((findElementIndex s elt).2 = false →
        flagAt (addElement s elt) (findElementIndex s elt).1 = 1 ∧
        (addElement s elt).count = s.count + 1)) ∧
    Inv (removeElement s elt?) :=
  ⟨Inv_createSet n cmp hsh,
    fun hroom => Inv_addElement s elt hInv hroom,
    Inv_removeElement s elt? hInv⟩

/-- Witness for C4 at the scenario table (capacity 4, three live elements),
adding 7 and removing 5. -/
theorem c4_witness :
    Inv demo3 ∧
    (Inv (createSet 2 cmpN hashN) ∧
      (demo3.count < demo3.size →
        Inv (addElement demo3 7) ∧
        ((findElementIndex demo3 7).2 = false →
          flagAt (addElement demo3 7) (findElementIndex demo3 7).1 = 1 ∧
          (addElement demo3 7).count = demo3.count + 1)) ∧
      Inv (removeElement demo3 (some 5))) :=
  ⟨by decide, c4_count_matches_occupied 2 cmpN hashN demo3 7 (some 5) (by decide)⟩

lemma probe_false_of_find_none (s : SET α) (e : α) (hs : 0 < s.size)
    (h : findElement s (some e) = none) :
    (findElementIndex s e).2 = false := by
  cases hx : (findElementIndex s e).2 with
  | false => rfl
  | true =>
    rcases probe_found_props s e hs hx with ⟨_, _, a, hda, _⟩
    rw [findElement_some_eq, hx] at h
    simp only [if_true] at h
    rw [hda] at h
    cases h

/-- C7: adding a not-yet-present element to a table with room and looking it
up again returns a stored element that compares equal to it. -/
theorem c7_round_trip (s : SET α) (elt : α) (hInv : Inv s)
    (hroom : s.count < s.size) (hRefl : s.compare elt elt = 0)
    (habs : findElement s (some elt) = none) :
    ∃ a, findElement (addElement s elt) (some elt) = some a ∧ s.compare a elt = 0 := by
  have hs : 0 < s.size := by omega
  have hfalse := probe_false_of_find_none s elt hs habs
  obtain ⟨hw, _⟩ := probe_lt_of_room s elt hInv hroom
  obtain ⟨hflen, hdlen, _, _⟩ := hInv
  have hpf := probe_insert_found s elt hs hflen hdlen hRefl hfalse hw
  refine ⟨elt, ?_, hRefl⟩
  rw [findElement_some_eq, hpf]
  rw [if_pos rfl]
  have hdata : (addElement s elt).data
      = s.data.set (findElementIndex s elt).1 (some elt) := by
    rw [addElement_eq, if_neg (by rw [hfalse]; simp)]
  unfold dataAt
  rw [hdata]
  exact getD_set_self s.data (some elt) none _ (by omega)

/-- Witness for C7: adding 7 to the scenario table and finding it again. -/
theorem c7_witness :
    Inv demo3 ∧ demo3.count < demo3.size ∧ demo3.compare 7 7 = 0 ∧
    findElement demo3 (some 7) = none ∧
    ∃ a, findElement (addElement demo3 7) (some 7) = some a ∧ demo3.compare a 7 = 0 :=
  ⟨by decide, by decide, by decide, by decide,
    c7_round_trip demo3 7 (by decide) (by decide) (by decide) (by decide)⟩

/-- C6: starting from a table with room that holds no element equal to
`elt`, any number of repeated `addElement elt` calls raises the size by at
most 1 in total, and at every point at most one occupied slot holds an
element equal to `elt`. -/
theorem c6_repeated_add (s : SET α) (elt : α) (hInv : Inv s)
    (hroom : s.count < s.size) (hRefl : s.compare elt elt = 0)
    (hAbsent : ∀ i, i < s.size → flagAt s i = 1 → eqAt s i elt = false) :
    ∀ n, numElements ((fun u => addElement u elt)^[n] s) ≤ numElements s + 1 ∧
      eqCount ((fun u => addElement u elt)^[n] s) elt ≤ 1 := by
  have hs : 0 < s.size := by omega
  obtain ⟨hflen, hdlen, hflagsOK, hcount⟩ := hInv
  have hfalse : (findElementIndex s elt).2 = false := by
    cases hx : (findElementIndex s elt).2 with
    | false => rfl
    | true =>
      rcases probe_found_props s elt hs hx with ⟨hwlt, hfl1, a, hda, hcmp⟩
      have heqw : eqAt s (findElementIndex s elt).1 elt = true := by
        unfold eqAt
        rw [hda]
        exact beq_iff_eq.mpr hcmp
      rw [hAbsent _ hwlt hfl1] at heqw
      cases heqw
  obtain ⟨hw, _⟩ := probe_lt_of_room s elt ⟨hflen, hdlen, hflagsOK, hcount⟩ hroom
  have hteq : addElement s elt
      = { s with data := s.data.set (findElementIndex s elt).1 (some elt),
                 flags := s.flags.set (findElementIndex s elt).1 1,
                 count := s.count + 1 } := by
    rw [addElement_eq, if_neg (by rw [hfalse]; simp)]
  have hflagsEq : (addElement s elt).flags
      = s.flags.set (findElementIndex s elt).1 1 := by rw [hteq]
  have hdataEq : (addElement s elt).data
      = s.data.set (findElementIndex s elt).1 (some elt) := by rw [hteq]
  have hcmpEq : (addElement s elt).compare = s.compare := by rw [hteq]
  have hcountEq : (addElement s elt).count = s.count + 1 := by rw [hteq]
  have hszEq : (addElement s elt).size = s.size := by rw [hteq]
  have hpf := probe_insert_found s elt hs hflen hdlen hRefl hfalse hw
  have hfix : addElement (addElement s elt) elt = addElement s elt := by
    rw [addElement_eq (addElement s elt) elt, hpf]
    rw [if_pos rfl]
  have hiter : ∀ n, (fun u => addElement u elt)^[n] (addElement s elt)
      = addElement s elt := by
    intro n
    induction n with
    | zero => rfl
    | succ m ih =>
      rw [Function.iterate_succ_apply', ih]
      exact hfix
  have heqs : eqCount s elt = 0 := by
    unfold eqCount
    rw [Finset.filter_false_of_mem, Finset.card_empty]
    intro i hi h
    obtain ⟨h1, h2⟩ := h
    rw [hAbsent i (Finset.mem_range.mp hi) h1] at h2
    cases h2
  have heqt : eqCount (addElement s elt) elt = 1 := by
    unfold eqCount
    rw [hszEq]
    have hfilter : (Finset.range s.size).filter
        (fun i => flagAt (addElement s elt) i = 1 ∧ eqAt (addElement s elt) i elt = true)
          = {(findElementIndex s elt).1} := by
      ext i
      simp only [Finset.mem_filter, Finset.mem_range, Finset.mem_singleton]
      by_cases hiw : i = (findElementIndex s elt).1
      · subst hiw
        have hfw : flagAt (addElement s elt) (findElementIndex s elt).1 = 1 := by
          unfold flagAt
          rw [hflagsEq]
          exact getD_set_self s.flags 1 0 _ (by omega)
        have hdw : dataAt (addElement s elt) (findElementIndex s elt).1 = some elt := by
          unfold dataAt
          rw [hdataEq]
          exact getD_set_self s.data (some elt) none _ (by omega)
        have hew : eqAt (addElement s elt) (findElementIndex s elt).1 elt = true := by
          unfold eqAt
          rw [hdw, hcmpEq]
          exact beq_iff_eq.mpr hRefl
        simp [hw, hfw, hew]
      · constructor
        · intro h
          obtain ⟨hi, h1, h2⟩ := h
          exfalso
          have hfi : flagAt (addElement s elt) i = flagAt s i := by
            unfold flagAt
            rw [hflagsEq]
            exact getD_set_ne s.flags 1 0 _ i (fun h => hiw h.symm)
          have hdi : dataAt (addElement s elt) i = dataAt s i := by
            unfold dataAt
            rw [hdataEq]
            exact getD_set_ne s.data (some elt) none _ i (fun h => hiw h.symm)
          have hei : eqAt (addElement s elt) i elt = eqAt s i elt := by
            unfold eqAt
            rw [hdi, hcmpEq]
          rw [hfi] at h1
          rw [hei] at h2
          rw [hAbsent i hi h1] at h2
          cases h2
        · intro h
          exact absurd h hiw
    rw [hfilter, Finset.card_singleton]
  intro n
  cases n with
  | zero =>
    constructor
    · show numElements s ≤ numElements s + 1
      omega
    · show eqCount s elt ≤ 1
      omega
  | succ m =>
    have hit : (fun u => addElement u elt)^[m + 1] s = addElement s elt := by
      rw [Function.iterate_succ_apply]
      exact hiter m
    rw [hit]
    constructor
    · show (addElement s elt).count ≤ s.count + 1
      omega
    · rw [heqt]

/-- Witness for C6: repeatedly adding 7 to the scenario table. -/
theorem c6_witness :
    Inv demo3 ∧ demo3.count < demo3.size ∧ demo3.compare 7 7 = 0 ∧
    (∀ i, i < demo3.size → flagAt demo3 i = 1 → eqAt demo3 i 7 = false) ∧
    ∀ n, numElements ((fun u => addElement u 7)^[n] demo3) ≤ numElements demo3 + 1 ∧
      eqCount ((fun u => addElement u 7)^[n] demo3) 7 ≤ 1 :=
  ⟨by decide, by decide, by decide, by decide,
    c6_repeated_add demo3 7 (by decide) (by decide) (by decide) (by decide)⟩

/-- C1 (amended): in the capacity-4 scenario, `add(1); add(5); add(2)` lands
1, 5, 2 at slots 1, 2, 3 with size 3; `remove(5)` leaves size 2 with 5
absent, 2 still found and a tombstone at slot 2; `add(9)` then probes past
the tombstone to the empty slot 0 and stores 9 there (the tombstone at slot
2 is not reused), giving size 3 with 9 found. -/
theorem c1_scenario :
    numElements demo3 = 3 ∧
    dataAt demo3 1 = some 1 ∧ dataAt demo3 2 = some 5 ∧ dataAt demo3 3 = some 2 ∧
    numElements demoAfterRemove = 2 ∧
    findElement demoAfterRemove (some 5) = none ∧
    findElement demoAfterRemove (some 2) = some 2 ∧
    flagAt demoAfterRemove 2 = 2 ∧
    numElements demoAfterAdd9 = 3 ∧
    findElement demoAfterAdd9 (some 9) = some 9 ∧
    dataAt demoAfterAdd9 0 = some 9 ∧
    flagAt demoAfterAdd9 2 = 2 := by decide

/-- C1 is false as stated: in the scenario, `add(9)` does not reuse the
tombstone that `remove(5)` left at slot 2.  The probe for 9 returns the
empty slot 0, 9 is stored there, and slot 2 remains tombstoned with no 9 in
it. -/
theorem c1_counterexample :
    (findElementIndex demoAfterRemove 9).1 = 0 ∧
    ¬ (findElementIndex demoAfterRemove 9).1 = 2 ∧
    flagAt demoAfterRemove 2 = 2 ∧
    ¬ dataAt demoAfterAdd9 2 = some 9 ∧
    dataAt demoAfterAdd9 0 = some 9 := by decide

/-- C2 is false as stated: on the capacity-3 table with a tombstone at slot
0 (left by `add(0); remove(0)`) and slot 1 empty, probing for the absent
element 3 (home slot 0) passes the tombstone and returns the empty slot's
index 1, not the first tombstone's index 0. -/
theorem c2_counterexample :
    flagAt demoTomb 0 = 2 ∧
    flagAt demoTomb 1 = 0 ∧
    findElement demoTomb (some 3) = none ∧
    findElementIndex demoTomb 3 = (1, false) ∧
    ¬ findElementIndex demoTomb 3 = (0, false) := by decide

end HashSet
